import Mathlib

/-!
Shallow embedding of the mantis2gitlab migration script (m2gl.js) and proofs
about its core logic: identity resolution and validation, label derivation,
note parsing, description assembly, pagination, the synchronization driver,
and note deletion / re-creation.

Conventions of the embedding:
* JS objects holding optional CSV columns become structures with `Option String`
  fields (`none` models an absent property / `undefined`).
* JS plain objects used as lookup tables become functions `String → Option _`
  (`none` models `!hasOwnProperty`).
* Promise-returning network operations become `Except String _` values supplied
  by an environment; a `.error` models a rejected promise (a thrown `Error`).
* Strings are processed as `List Char` where character-level matching is
  involved.
-/

/-- Character class of the first regex group in `getNotes`: in JS
`[\dTZ:-]` (a digit, `T`, `Z`, `:` or `-`). -/

def isTsChar (c : Char) : Bool :=
  c.isDigit || c == 'T' || c == 'Z' || c == ':' || c == '-'

/-- Character class of the third regex group in `getNotes`: `[a-z]`. -/

def isLowerAZ (c : Char) : Bool :=
  'a' ≤ c && c ≤ 'z'

/-- Character class of `(.|\n)` in the `getNotes` regex: `.` matches any
character except line terminators, and the alternative re-admits `'\n'`,
so together everything except `'\r'`, U+2028 and U+2029 is accepted. -/

def isDotOrNl (c : Char) : Bool :=
  !(c == '\r' || c == '\u2028' || c == '\u2029')

/-- `startsWithL pat l` is true when `pat` is an initial segment of `l`
(models JS `text.indexOf(pat) === 0`). -/

def startsWithL : List Char → List Char → Bool
  | [], _ => true
  | _ :: _, [] => false
  | p :: ps, c :: cs => p == c && startsWithL ps cs

/-- `hasSubL pat l` is true when `pat` occurs as a contiguous segment of `l`. -/

def hasSubL (pat : List Char) : List Char → Bool
  | [] => pat.isEmpty
  | c :: rest => startsWithL pat (c :: rest) || hasSubL pat rest

/-- Substring test on strings, via the character lists. -/

def strContains (s pat : String) : Bool :=
  hasSubL pat.data s.data

/-- One parsed CSV row of the Mantis export (`gitLab.mantisIssues[i]`).
Columns the script guards with `hasOwnProperty` are `Option String`; the JS
field `"Assigned To"` is spelled `AssignedTo`.  `Id` is already numeric
(`readMantisIssues` applies `Number(row.Id)` right after parsing). -/

structure Row where
  Id : Nat := 0
  Summary : String := ""
  Reporter : Option String := none
  AssignedTo : Option String := none
  Created : Option String := none
  Updated : Option String := none
  Description : String := ""
  Info : Option String := none
  Notes : Option String := none
  CategoryId : String := ""
  Priority : String := ""
  Severity : String := ""
  Status : String := ""
  TargetVersion : String := ""
  tags : List String := []
deriving DecidableEq, Repr

/-- One entry of `config.users`. -/

structure MUser where
  name : String
  gl_username : String
deriving DecidableEq, Repr

/-- The parts of the configuration file used by the functions modelled here.
Lookup tables are total functions returning `Option`; `none` models a key the
JS object does not own. -/

structure Config where
  mantisUrl : Option String := none
  users : String → Option MUser := fun _ => none
  category_labels : String → Option String := fun _ => none
  priority_labels : String → Option String := fun _ => none
  severity_labels : String → Option String := fun _ => none

/-- `getConfig` extends the configured users with the fallback entry
`"" ↦ {name: "Unknown", gl_username: gitlabSudo}`; an explicit `""` entry in
the file would win (`_.extend({"": …}, config.users)`). -/

def applyUserFallback (gitlabSudo : String) (fileUsers : String → Option MUser) :
    String → Option MUser :=
  fun k =>
    match fileUsers k with
    | some u => some u
    | none => if k = "" then some ⟨"Unknown", gitlabSudo⟩ else none

/-- `getUserByMantisUsername(username)`:
`(username && config.users[username]) || config.users[""] || null`.
The argument is `Option String` because the script also passes
possibly-undefined CSV fields; `undefined` and `""` are both falsy. -/

def getUserByMantisUsername (users : String → Option MUser) :
    Option String → Option MUser
  | none => users ""
  | some u =>
    if u = "" then users ""
    else
      match users u with
      | some m => some m
      | none => users ""

/-- One pass of the collection loops in `validateMantisIssues`: push each
value whose lookup is falsy and that is not already collected
(`missingUsernames.indexOf(v) === -1`). -/

def collectMissing (users : String → Option MUser)
    (vals : List (Option String)) (acc : List (Option String)) :
    List (Option String) :=
  vals.foldl
    (fun acc v =>
      if (getUserByMantisUsername users v).isNone && !(acc.contains v) then
        acc ++ [v]
      else acc)
    acc

/-- `validateMantisIssues`: collect unresolvable assignees, then unresolvable
reporters, and throw `"User validation failed"` when any were collected. -/

def validateMantisIssues (users : String → Option MUser) (issues : List Row) :
    Except String Unit :=
  let missing :=
    collectMissing users (issues.map (·.Reporter))
      (collectMissing users (issues.map (·.AssignedTo)) [])
  if missing.length > 0 then Except.error "User validation failed" else Except.ok ()

/-- `getLabels(row)`.  Note that the source checks
`config.category_labels.hasOwnProperty(…)` in all three branches (lines 487,
491 and 495 of m2gl.js) while reading the label value from the per-kind
table; the embedding reproduces that. A label is pushed only when the read
value is truthy (a non-empty string). -/

def getLabels (cfg : Config) (row : Row) : String :=
  let l0 := row.tags
  let l1 :=
    match cfg.category_labels row.CategoryId with
    | some v => if v != "" then l0 ++ [v] else l0
    | none => l0
  let l2 :=
    if (cfg.category_labels row.Priority).isSome then
      match cfg.priority_labels row.Priority with
      | some v => if v != "" then l1 ++ [v] else l1
      | none => l1
    else l1
  let l3 :=
    if (cfg.category_labels row.Severity).isSome then
      match cfg.severity_labels row.Severity with
      | some v => if v != "" then l2 ++ [v] else l2
      | none => l2
    else l2
  String.intercalate "," l3

/-- Truthiness-plus-`'NULL'` test used all over `getDescription` and
`getNotes`: `row.hasOwnProperty(f) && row[f] && row[f] !== 'NULL'`. -/

def present (o : Option String) : Bool :=
  match o with
  | some s => s != "" && s != "NULL"
  | none => false

/-- The `attributes` array built at the top of `getDescription(row)`. -/

def descAttributes (cfg : Config) (row : Row) : List String :=
  (match cfg.mantisUrl with
   | some u =>
     if u != "" then
       ["[Mantis Issue " ++ toString row.Id ++ "](" ++ u ++ "/view.php?id=" ++
         toString row.Id ++ ")"]
     else ["Mantis Issue " ++ toString row.Id]
   | none => ["Mantis Issue " ++ toString row.Id])
  ++ (if present row.Reporter then ["Reported By: @" ++ row.Reporter.getD ""] else [])
  ++ (if present row.AssignedTo then ["Assigned To: @" ++ row.AssignedTo.getD ""] else [])
  ++ (if present row.Created then ["Created: " ++ row.Created.getD ""] else [])
  ++ (if present row.Updated then ["Updated: " ++ row.Updated.getD ""] else [])

/-- The optional trailing `Info` section of `getDescription(row)`. -/

def infoSection (row : Row) : String :=
  if present row.Info then "\n\n----\n_Info:_\n" ++ row.Info.getD "" else ""

/-- `getDescription(row)`. -/

def getDescription (cfg : Config) (row : Row) : String :=
  "_" ++ String.intercalate ", " (descAttributes cfg row) ++ "_\n\n\n----\n" ++
    row.Description ++ "\n\n" ++ infoSection row

/-- Recognise the literal `][` of the `getNotes` regex at the head of the
input, returning the remainder. -/

def expectSep : List Char → Option (List Char)
  | a :: b :: rest => if a = ']' ∧ b = '[' then some rest else none
  | _ => none

/-- Matching of `(]\[)([a-z]+)(]\[)((.|\n)*)` (the part of the `getNotes`
regex after the first group) at the head of the input, returning groups 3
and 5.  `[a-z]+` is greedy; backtracking to a shorter run never helps,
because a shorter run is followed by a lowercase letter, never by `]`,
so the maximal run is the only candidate. -/

def matchTail (l : List Char) : Option (List Char × List Char) :=
  match expectSep l with
  | some r2 =>
    if r2.takeWhile isLowerAZ = [] then none
    else
      match expectSep (r2.dropWhile isLowerAZ) with
      | some r4 => some (r2.takeWhile isLowerAZ, r4.takeWhile isDotOrNl)
      | none => none
  | none => none

/-- Matching of the whole `getNotes` regex
`([\dTZ:-]+)(]\[)([a-z]+)(]\[)((.|\n)*)` anchored at the head of the input,
returning groups 1, 3 and 5.  As for `[a-z]+`, the greedy `[\dTZ:-]+` need
not backtrack: a shorter run is followed by a `[\dTZ:-]` character, never
by `]`. -/

def matchAt (l : List Char) : Option (List Char × List Char × List Char) :=
  if l.takeWhile isTsChar = [] then none
  else
    match matchTail (l.dropWhile isTsChar) with
    | some (g3, g5) => some (l.takeWhile isTsChar, g3, g5)
    | none => none

/-- JS `row.match(regexp)` without the `g` flag: the leftmost match wins;
`none` models the `null` result. -/

def findMatch : List Char → Option (List Char × List Char × List Char)
  | [] => none
  | c :: rest =>
    match matchAt (c :: rest) with
    | some m => some m
    | none => findMatch rest

/-- `row.Notes.split("$$$$")` on character lists: leftmost, non-overlapping
occurrences of the four-dollar delimiter cut the input. -/

def splitOnSep : List Char → List (List Char)
  | '$' :: '$' :: '$' :: '$' :: rest => [] :: splitOnSep rest
  | c :: rest =>
    match splitOnSep rest with
    | [] => [[c]]
    | chunk :: chunks => (c :: chunk) :: chunks
  | [] => [[]]

/-- One entry pushed onto `noteData` by `getNotes`. -/

structure NoteData where
  created_at : String
  author : String
  body : String
deriving DecidableEq, Repr

/-- Parsing of one chunk in `getNotes`: groups 1, 3 and 5 of the regex
match, with the body prefixed by the Mantis attribution marker.  A `none`
models the situation where `matches` is `null` and `matches[1]` throws. -/

def parseNote (chunk : List Char) : Option NoteData :=
  match findMatch chunk with
  | some (g1, g3, g5) =>
    some ⟨String.mk g1, String.mk g3, "_via Mantis:_ " ++ String.mk g5⟩
  | none => none

/-- Overall result of `getNotes(row)`: `null`, a thrown `TypeError` from a
chunk that did not match, or the parsed list. -/

inductive NotesResult where
  | noNotes
  | parseError
  | notes (l : List NoteData)
deriving DecidableEq, Repr

/-- `mapOption f l` applies `f` to every element and fails when any
application fails — the `_.forEach` of `getNotes` pushes parsed chunks and
throws at the first chunk whose match came back `null`. -/

def mapOption {α β : Type} (f : α → Option β) : List α → Option (List β)
  | [] => some []
  | a :: l =>
    match f a, mapOption f l with
    | some b, some bs => some (b :: bs)
    | _, _ => none

/-- `getNotes(row)`. -/

def getNotes (row : Row) : NotesResult :=
  match row.Notes with
  | none => NotesResult.noNotes
  | some s =>
    if s = "" ∨ s = "NULL" then NotesResult.noNotes
    else
      match mapOption parseNote (splitOnSep s.data) with
      | some l => NotesResult.notes l
      | none => NotesResult.parseError

/-- The `Sudo` header value computed inside `addNote(issueIid, noteData)`:
the parsed notes always carry an `author` property, so the header is set to
`noteData.author` — the raw Mantis username string. -/

def addNoteSudo (_gitlabSudo : String) (note : NoteData) : String :=
  note.author

/-- The per-created-comment `Sudo` header values of
`replaceIssueNotes(issueId, mantisIssue)`.  The source line
`_.extend({author: getUserByMantisUsername(row.author)}, row);` computes a
resolved author but discards the result, and `addNote` is called with the
unmodified parsed note, so the resolution does not influence the headers. -/

def replaceIssueNotesSudos (gitlabSudo : String) (row : Row) : List String :=
  match getNotes row with
  | NotesResult.notes l => l.map (addNoteSudo gitlabSudo)
  | _ => []

/-- The attribution marker tested by `deleteAllIssueNotes`. -/

def mantisNoteMarker : String := "_via Mantis:_"

/-- A note fetched from the GitLab issue (`result.body[i]` in
`deleteAllIssueNotes`). -/

structure GLNote where
  id : Nat
  body : String
deriving DecidableEq, Repr

/-- `deleteIssueNote(issueIid, noteId)` (non-dry-run path).  The argument is
the remote DELETE outcome: `.ok status` for a 2xx response, `.error code`
for a rejection with the given HTTP status.  A 403 rejection is swallowed
and returns `false` (modelled `.ok none`, distinguishable from the `.ok
(some status)` of a successful removal); any other rejection throws.  The
thrown message omits the interpolated URL. -/

def deleteIssueNote (remote : Except Nat Nat) : Except String (Option Nat) :=
  match remote with
  | Except.ok status => Except.ok (some status)
  | Except.error code =>
    if code = 403 then Except.ok none
    else Except.error "Failed to remove note of issue in GitLab"

/-- Result of `deleteAllIssueNotes`: the GET listing the notes may fail (the
catch returns an error object instead of throwing), otherwise a deletion is
issued for every note passing the marker filter. -/

inductive DeleteAllResult where
  | listFailed
  | done (attempts : List (Nat × Except String (Option Nat)))

/-- `deleteAllIssueNotes(issueIid, onlyMantisNotes)` (non-dry-run path).
`listResult` is the outcome of the GET on the notes collection and
`deleteRemote` gives the remote outcome of the DELETE for each note id.
The `_.forEach` issues `deleteIssueNote` exactly for the notes for which
`!onlyMantisNotes || note.body.indexOf('_via Mantis:_') === 0`. -/

def deleteAllIssueNotes (onlyMantisNotes : Bool)
    (listResult : Except Nat (List GLNote)) (deleteRemote : Nat → Except Nat Nat) :
    DeleteAllResult :=
  match listResult with
  | Except.error _ => DeleteAllResult.listFailed
  | Except.ok notes =>
    DeleteAllResult.done
      ((notes.filter
          (fun n => !onlyMantisNotes || startsWithL mantisNoteMarker.data n.body.data)).map
        (fun n => (n.id, deleteIssueNote (deleteRemote n.id))))

/-- The deletions a `deleteAllIssueNotes` call issued. -/

def attemptedDeletes : DeleteAllResult → List (Nat × Except String (Option Nat))
  | DeleteAllResult.listFailed => []
  | DeleteAllResult.done l => l

/-- Terminal states of `importIssue` for one record, when the run is not
aborted. -/

inductive StepOutcome where
  | updated
  | inserted
  | insertedClosed
  | insertedCloseFailed
  | insertFailed
deriving DecidableEq, Repr

/-- The remote outcomes `importIssue(mantisIssue)` can observe for one
record: whether `getIssue` finds the issue in the cache, whether the Mantis
record is closed, and the settled results of the update / insert / close /
`replaceIssueNotes` promises. -/

structure ImportEnv where
  issueExists : Bool
  isClosed : Bool
  updateResult : Except String Unit
  insertResult : Except String Unit
  closeResult : Except String Unit
  replaceNotesResult : Except String Unit

/-- `importIssue(mantisIssue)`.  The update branch has no rejection handler:
an update failure, or a failure of the subsequent `replaceIssueNotes`,
propagates.  The insert branch passes an error handler to `.then`, so an
insert failure is logged and swallowed; after a successful insert a closed
record gets a `closeIssue` whose failure is only warned about (and no note
replacement), while an open record gets `replaceIssueNotes` whose failure
propagates. -/

def importIssue (env : ImportEnv) : Except String StepOutcome :=
  if env.issueExists then
    match env.updateResult with
    | Except.error e => Except.error e
    | Except.ok _ =>
      match env.replaceNotesResult with
      | Except.error e => Except.error e
      | Except.ok _ => Except.ok StepOutcome.updated
  else
    match env.insertResult with
    | Except.error _ => Except.ok StepOutcome.insertFailed
    | Except.ok _ =>
      if env.isClosed then
        match env.closeResult with
        | Except.error _ => Except.ok StepOutcome.insertedCloseFailed
        | Except.ok _ => Except.ok StepOutcome.insertedClosed
      else
        match env.replaceNotesResult with
        | Except.error e => Except.error e
        | Except.ok _ => Except.ok StepOutcome.inserted

/-- `importGitLabIssues()`: the `_.reduce(gitLab.mantisIssues, (p, issue) =>
p.then(() => importIssue(issue)), Q())` chain.  Each record is processed only
after the previous record's promise settled; a rejection stops the chain.
The value is the trace of completed records (id and terminal state, in
completion order) together with the aborting error, if any. -/

def importGitLabIssues (step : Row → Except String StepOutcome) :
    List Row → List (Nat × StepOutcome) × Option String
  | [] => ([], none)
  | r :: rest =>
    match step r with
    | Except.error e => ([], some e)
    | Except.ok o =>
      let p := importGitLabIssues step rest
      ((r.Id, o) :: p.1, p.2)

/-- `getRemainingGitLabProjectIssues(page, per_page)`.  `pages` is the remote
response for each page index; the `fuel` argument bounds the recursion depth
(the JS recursion terminates only when some page is short, which every
hypothesis below guarantees; `none` is returned when fuel runs out).  Besides
the accumulated issues the model records which pages were requested. -/

def getRemainingGitLabProjectIssues {α : Type} (pages : Nat → List α) :
    Nat → Nat → Nat → Option (List α × List Nat)
  | 0, _, _ => none
  | fuel + 1, page, perPage =>
    let issues := pages page
    if issues.length < perPage then some (issues, [page])
    else
      match getRemainingGitLabProjectIssues pages fuel (page + 1) perPage with
      | some (rest, reqs) => some (issues ++ rest, page :: reqs)
      | none => none

/-- `getGitLabProjectIssues()` starts the pagination at page 0 with page
size 100. -/

def getGitLabProjectIssues {α : Type} (pages : Nat → List α) (fuel : Nat) :
    Option (List α × List Nat) :=
  getRemainingGitLabProjectIssues pages fuel 0 100

/-- The comparison key of `_.sortBy(rows, "Id")`. -/

def rowLe (a b : Row) : Prop := a.Id ≤ b.Id

instance : DecidableRel rowLe := fun a b => Nat.decLe a.Id b.Id

instance : IsTotal Row rowLe := ⟨fun a b => Nat.le_total a.Id b.Id⟩

instance : IsTrans Row rowLe := ⟨fun _ _ _ hab hbc => Nat.le_trans hab hbc⟩

/-- The `fromIssueId` filter of `readMantisIssues`: applied only when the
`--from` number is non-zero (`if (fromIssueId)`). -/

def filterFrom (fromIssueId : Nat) (rows : List Row) : List Row :=
  if fromIssueId ≠ 0 then rows.filter (fun r => fromIssueId ≤ r.Id) else rows

/-- The record-list processing of `readMantisIssues` after CSV parsing and
`Number` conversion of the ids: optional filtering, then a stable sort by
`Id` (`_.sortBy`, modelled by insertion sort). -/

def readMantisIssues (fromIssueId : Nat) (rows : List Row) : List Row :=
  List.insertionSort rowLe (filterFrom fromIssueId rows)

/-- A configuration file with no `users` section at all. -/

def c1fileUsers : String → Option MUser := fun _ => none

/-- The user table after `getConfig` ran with `--sudo admin`. -/

def c1users : String → Option MUser := applyUserFallback "admin" c1fileUsers

/-- A record referencing the unconfigured username `ghost` and an empty
assignee. -/

def c1row : Row := { Reporter := some "ghost", AssignedTo := some "" }

/-- A configuration with priority `40 ↦ priority:high`, severity
`60 ↦ severity:major` and no category labels at all. -/

def c2cfg : Config :=
  { category_labels := fun _ => none,
    priority_labels := fun k => if k = "40" then some "priority:high" else none,
    severity_labels := fun k => if k = "60" then some "severity:major" else none }

/-- A record with an unmapped category code, priority 40 and severity 60. -/

def c2row : Row := { CategoryId := "99", Priority := "40", Severity := "60" }

/-- A user table mapping the Mantis username `bob` to the GitLab username
`robert`. -/

def c3users : String → Option MUser :=
  applyUserFallback "admin" (fun k => if k = "bob" then some ⟨"Bob", "robert"⟩ else none)

/-- A record with one note authored by `bob`. -/

def c3row : Row := { Notes := some "2020-01-01T00:00:00Z][bob][Hello" }

/-- Concrete page responses for the C4 witness: pages 0 and 1 full, page 2
with 37 items, nothing afterwards. -/

def c4pages : Nat → List Nat := fun p =>
  if p = 2 then List.replicate 37 0 else if p < 2 then List.replicate 100 0 else []

/-- The two-note record of the C5 test vector. -/

def c5row : Row :=
  { Notes := some
      "2020-01-01T00:00:00Z][bob][First note$$$$2020-01-02T00:00:00Z][carol][Second note" }

/-- A record with no notes field, for the C5 witness. -/

def c5emptyRow : Row := {}

/-- Configuration for the C6 test vector (no Mantis base URL). -/

def c6cfg : Config := {}

/-- The C6 test record: reporter `alice`, assignee `NULL`, created
`2020-01-01`, description `Body text`, no info. -/

def c6row : Row :=
  { Id := 1, Reporter := some "alice", AssignedTo := some "NULL",
    Created := some "2020-01-01", Description := "Body text" }

/-- An existing record whose update is rejected. -/

def c7envUpdateFail : ImportEnv :=
  { issueExists := true, isClosed := false,
    updateResult := Except.error "Failed to update issue in GitLab",
    insertResult := Except.ok (), closeResult := Except.ok (),
    replaceNotesResult := Except.ok () }

/-- A missing record whose insert is rejected. -/

def c7envInsertFail : ImportEnv :=
  { issueExists := false, isClosed := false,
    updateResult := Except.ok (),
    insertResult := Except.error "Failed to insert issue into GitLab",
    closeResult := Except.ok (), replaceNotesResult := Except.ok () }

/-- Per-record remote behaviour for the C7 witness: record 1's insert fails,
record 2 inserts fine. -/

def c7step : Row → Except String StepOutcome := fun r =>
  if r.Id = 1 then importIssue c7envInsertFail
  else importIssue { c7envInsertFail with insertResult := Except.ok () }

/-- Input rows for the C9 witness: distinct ids 3, 1, 2, in scrambled
order. -/

def c9rows : List Row := [{ Id := 3 }, { Id := 1 }, { Id := 2 }]

/-- Notes on the remote issue for the C8 witness: note 1 was imported from
Mantis, note 2 was written by hand. -/

def c8notes : List GLNote := [⟨1, "_via Mantis:_ hi"⟩, ⟨2, "keep me"⟩]

/-- Remote deletion outcomes for the C8 witness: deleting note 1 is
rejected with 403. -/

def c8deleteRemote : Nat → Except Nat Nat := fun id =>
  if id = 1 then Except.error 403 else Except.ok 204

/-- `hasSep l` is true when the two-character sequence `][` occurs in `l`. -/

def hasSep : List Char → Bool
  | [] => false
  | [_] => false
  | a :: b :: rest => (a == ']' && b == '[') || hasSep (b :: rest)

/-- The record of the C10 counterexample: a single well-formed chunk whose
author token `user2` contains a digit and whose body contains `][`. -/

def c10row : Row := { Notes := some "2020-01-01T00:00:00Z][user2][ab][cd" }

/-- C1: the claim says an unconfigured non-empty username is a validation
error that aborts the run.  In the code, `getUserByMantisUsername` falls back
to `config.users[""]` — which `getConfig` always populates — for every
unknown username, so `validateMantisIssues` never collects anything and the
run proceeds: with no configured users at all, the unknown reporter `ghost`
resolves to the fallback identity and validation succeeds.  (The
empty-username fallback half of the claim does hold, as the last conjunct
shows.) -/
theorem c1_unknown_username_resolves_to_fallback :
    c1fileUsers "ghost" = none ∧
    getUserByMantisUsername c1users (some "ghost") = some ⟨"Unknown", "admin"⟩ ∧
    validateMantisIssues c1users [c1row] = Except.ok () ∧
    getUserByMantisUsername c1users (some "") = some ⟨"Unknown", "admin"⟩ ∧
    getUserByMantisUsername c1users none = some ⟨"Unknown", "admin"⟩ := by
  refine ⟨rfl, rfl, rfl, rfl, rfl⟩

/-- C2: the claim says each label is appended exactly when its own mapping
table contains the record's code, and that this record yields
`"priority:high,severity:major"`.  The code instead guards the priority and
severity pushes with `config.category_labels.hasOwnProperty(...)` (m2gl.js
lines 491 and 495), so with an empty category table neither mapped label is
appended and the result is the empty string. -/
theorem c2_labels_gated_by_category_table :
    c2cfg.priority_labels c2row.Priority = some "priority:high" ∧
    c2cfg.severity_labels c2row.Severity = some "severity:major" ∧
    c2cfg.category_labels c2row.CategoryId = none ∧
    getLabels c2cfg c2row = "" ∧
    ("" : String) ≠ "priority:high,severity:major" := by
  refine ⟨rfl, rfl, rfl, rfl, by decide⟩

/-- C3: the claim says each created comment is attributed via the Sudo
header to the identity the resolver maps the note's author to.  The code
resolves the author but discards the result (`_.extend({author: ...}, row)`
both loses to `row`'s own `author` key and is not used), and `addNote` sets
`Sudo = noteData.author` — the raw Mantis username `bob`, not the resolved
GitLab username `robert`. -/
theorem c3_sudo_is_raw_mantis_username :
    replaceIssueNotesSudos "admin" c3row = ["bob"] ∧
    getUserByMantisUsername c3users (some "bob") = some ⟨"Bob", "robert"⟩ ∧
    ("bob" : String) ≠ "robert" := by
  refine ⟨rfl, rfl, by decide⟩

/-- C4: the paginated fetch starts at page 0 with page size 100; a short
page ends the recursion returning the accumulated concatenation, a full page
recurses at `page + 1`; with full pages at 0 and 1 and a 37-item page at 2
it returns exactly 237 items and requests exactly pages 0, 1, 2. -/
theorem c4_pagination {α : Type} (pages : Nat → List α) (fuel : Nat)
    (hf : 3 ≤ fuel) (h0 : (pages 0).length = 100) (h1 : (pages 1).length = 100)
    (h2 : (pages 2).length = 37) :
    (∀ (qs : Nat → List α) (f page perPage : Nat), (qs page).length < perPage →
      getRemainingGitLabProjectIssues qs (f + 1) page perPage = some (qs page, [page])) ∧
    (∀ (qs : Nat → List α) (f page perPage : Nat), ¬ (qs page).length < perPage →
      getRemainingGitLabProjectIssues qs (f + 1) page perPage =
        match getRemainingGitLabProjectIssues qs f (page + 1) perPage with
        | some (rest, reqs) => some (qs page ++ rest, page :: reqs)
        | none => none) ∧
    getGitLabProjectIssues pages fuel =
      some (pages 0 ++ (pages 1 ++ pages 2), [0, 1, 2]) ∧
    (pages 0 ++ (pages 1 ++ pages 2)).length = 237 := by
  obtain ⟨k, rfl⟩ : ∃ k, fuel = k + 3 := ⟨fuel - 3, by omega⟩
  have step : ∀ (qs : Nat → List α) (f page perPage : Nat), (qs page).length < perPage →
      getRemainingGitLabProjectIssues qs (f + 1) page perPage = some (qs page, [page]) := by
    intro qs f page perPage h
    simp [getRemainingGitLabProjectIssues, h]
  have stepFull : ∀ (qs : Nat → List α) (f page perPage : Nat),
      ¬ (qs page).length < perPage →
      getRemainingGitLabProjectIssues qs (f + 1) page perPage =
        match getRemainingGitLabProjectIssues qs f (page + 1) perPage with
        | some (rest, reqs) => some (qs page ++ rest, page :: reqs)
        | none => none := by
    intro qs f page perPage h
    simp [getRemainingGitLabProjectIssues, h]
  refine ⟨step, stepFull, ?_, ?_⟩
  · have s2 : getRemainingGitLabProjectIssues pages (k + 1) 2 100 =
        some (pages 2, [2]) := step pages k 2 100 (by omega)
    have s1 : getRemainingGitLabProjectIssues pages (k + 2) 1 100 =
        some (pages 1 ++ pages 2, [1, 2]) := by
      rw [show k + 2 = (k + 1) + 1 from rfl,
        stepFull pages (k + 1) 1 100 (by omega), s2]
    have s0 : getRemainingGitLabProjectIssues pages (k + 3) 0 100 =
        some (pages 0 ++ (pages 1 ++ pages 2), [0, 1, 2]) := by
      rw [show k + 3 = (k + 2) + 1 from rfl,
        stepFull pages (k + 2) 0 100 (by omega), s1]
    exact s0
  · simp [h0, h1, h2]

/-- Witness for C4 at the concrete response sequence. -/
theorem c4_pagination_witness :
    (3 ≤ 3 ∧ (c4pages 0).length = 100 ∧ (c4pages 1).length = 100 ∧
      (c4pages 2).length = 37) ∧
    getGitLabProjectIssues c4pages 3 =
      some (c4pages 0 ++ (c4pages 1 ++ c4pages 2), [0, 1, 2]) :=
  ⟨by decide, (c4_pagination c4pages 3 (by decide) (by decide) (by decide)
    (by decide)).2.2.1⟩

/-- C5: `getNotes` returns nothing when the notes field is absent, empty or
the literal `NULL`; otherwise the field is split on `$$$$` and each chunk is
parsed as `timestamp][author][body`; the test vector yields exactly two
entries, authors `bob` and `carol`, bodies prefixed with the attribution
marker. -/
theorem c5_note_extraction :
    (∀ row : Row, row.Notes = none → getNotes row = NotesResult.noNotes) ∧
    (∀ row : Row, row.Notes = some "" → getNotes row = NotesResult.noNotes) ∧
    (∀ row : Row, row.Notes = some "NULL" → getNotes row = NotesResult.noNotes) ∧
    getNotes c5row = NotesResult.notes
      [⟨"2020-01-01T00:00:00Z", "bob", "_via Mantis:_ First note"⟩,
       ⟨"2020-01-02T00:00:00Z", "carol", "_via Mantis:_ Second note"⟩] := by
  refine ⟨?_, ?_, ?_, rfl⟩
  · intro row h
    simp [getNotes, h]
  · intro row h
    simp [getNotes, h]
  · intro row h
    simp [getNotes, h]

/-- Witness for C5 at a record whose notes field is absent. -/
theorem c5_note_extraction_witness :
    c5emptyRow.Notes = none ∧ getNotes c5emptyRow = NotesResult.noNotes :=
  ⟨rfl, c5_note_extraction.1 c5emptyRow rfl⟩

/-- A prefix test only looks at as much of the text as the pattern is long:
appending behind a text at least as long as the pattern changes nothing. -/
theorem startsWithL_append_of_le :
    ∀ (p l t : List Char), p.length ≤ l.length →
      startsWithL p (l ++ t) = startsWithL p l
  | [], _, _, _ => rfl
  | _ :: _, [], _, h => by simp at h
  | p :: ps, c :: cs, t, h => by
    show (p == c && startsWithL ps (cs ++ t)) = (p == c && startsWithL ps cs)
    rw [startsWithL_append_of_le ps cs t (by simpa using h)]

/-- A prefix test fails as soon as the heads differ. -/
theorem startsWithL_cons_false (a c : Char) (ps cs : List Char)
    (h : (a == c) = false) : startsWithL (a :: ps) (c :: cs) = false := by
  simp [startsWithL, h]

/-- Membership in a conditional singleton determines the element. -/
theorem mem_ite_singleton {c : Prop} [Decidable c] {x y : String}
    (h : x ∈ (if c then [y] else [])) : x = y := by
  by_cases hc : c
  · rw [if_pos hc] at h
    simpa using h
  · rw [if_neg hc] at h
    simp at h

/-- C6: the description template — the italic header's clauses are included
exactly under the per-field presence conditions, followed by a horizontal
rule, the raw description, a trailing blank line and the optional `Info`
section; a reporter clause is present for every present reporter, no header
clause starts with `Assigned To` when the assignee field is absent, empty or
`NULL`, and the concrete test vector contains `Reported By: @alice` and
`Body text` after the rule, but no `Assigned To` clause and no `Info:`
section. -/
theorem c6_description :
    (∀ (cfg : Config) (row : Row), getDescription cfg row =
      "_" ++ String.intercalate ", " (descAttributes cfg row) ++ "_\n\n\n----\n" ++
        row.Description ++ "\n\n" ++ infoSection row) ∧
    (∀ (cfg : Config) (row : Row) (r : String), row.Reporter = some r →
      r ≠ "" → r ≠ "NULL" → ("Reported By: @" ++ r) ∈ descAttributes cfg row) ∧
    (∀ (cfg : Config) (row : Row), present row.AssignedTo = false →
      ∀ x ∈ descAttributes cfg row,
        startsWithL ("Assigned To").data x.data = false) ∧
    (strContains (getDescription c6cfg c6row) "Reported By: @alice" = true ∧
      strContains (getDescription c6cfg c6row) "Assigned To" = false ∧
      strContains (getDescription c6cfg c6row) "----\nBody text" = true ∧
      strContains (getDescription c6cfg c6row) "Info:" = false) := by
  refine ⟨fun cfg row => rfl, ?_, ?_, by decide⟩
  · intro cfg row r h1 h2 h3
    have hp2 : present (some r) = true := by
      simp [present, h2, h3]
    simp [descAttributes, h1, hp2, List.mem_append]
  · intro cfg row hA x hx
    simp only [descAttributes, hA, Bool.false_eq_true, if_false,
      List.append_nil, List.nil_append] at hx
    have hx' : (x ∈ (match cfg.mantisUrl with
          | some u =>
            if u != "" then
              ["[Mantis Issue " ++ toString row.Id ++ "](" ++ u ++
                "/view.php?id=" ++ toString row.Id ++ ")"]
            else ["Mantis Issue " ++ toString row.Id]
          | none => ["Mantis Issue " ++ toString row.Id])) ∨
        (x ∈ (if present row.Reporter then
            ["Reported By: @" ++ row.Reporter.getD ""] else [])) ∨
        (x ∈ (if present row.Created then
            ["Created: " ++ row.Created.getD ""] else [])) ∨
        (x ∈ (if present row.Updated then
            ["Updated: " ++ row.Updated.getD ""] else [])) := by
      simpa [List.mem_append] using hx
    have hAd : ("Assigned To").data = 'A' :: ("ssigned To").data := rfl
    rcases hx' with h | h | h | h
    · rcases hcm : cfg.mantisUrl with _ | u <;> rw [hcm] at h
      · have hxe : x = "Mantis Issue " ++ toString row.Id := by simpa using h
        subst hxe
        rw [String.data_append, startsWithL_append_of_le _ _ _ (by decide)]
        decide
      · have hm : x ∈ (if u = "" then ["Mantis Issue " ++ toString row.Id]
            else ["[Mantis Issue " ++ toString row.Id ++ "](" ++ u ++
              "/view.php?id=" ++ toString row.Id ++ ")"]) := by
          simpa using h
        by_cases hu : u = ""
        · rw [if_pos hu] at hm
          have hxe : x = "Mantis Issue " ++ toString row.Id := by simpa using hm
          subst hxe
          rw [String.data_append, startsWithL_append_of_le _ _ _ (by decide)]
          decide
        · rw [if_neg hu] at hm
          have hxe : x = "[Mantis Issue " ++ toString row.Id ++ "](" ++ u ++
              "/view.php?id=" ++ toString row.Id ++ ")" := by simpa using hm
          subst hxe
          simp only [String.data_append, List.append_assoc]
          rw [startsWithL_append_of_le _ _ _ (by decide)]
          decide
    · have hxe := mem_ite_singleton h
      subst hxe
      rw [String.data_append, startsWithL_append_of_le _ _ _ (by decide)]
      decide
    · have hxe := mem_ite_singleton h
      subst hxe
      have hCd : ("Created: ").data = 'C' :: ("reated: ").data := rfl
      rw [String.data_append, hAd, hCd, List.cons_append]
      exact startsWithL_cons_false _ _ _ _ (by decide)
    · have hxe := mem_ite_singleton h
      subst hxe
      have hUd : ("Updated: ").data = 'U' :: ("pdated: ").data := rfl
      rw [String.data_append, hAd, hUd, List.cons_append]
      exact startsWithL_cons_false _ _ _ _ (by decide)

/-- Witness for C6: the reporter-clause part applied at the test vector. -/
theorem c6_description_witness :
    (c6row.Reporter = some "alice" ∧ "alice" ≠ "" ∧ "alice" ≠ "NULL") ∧
    ("Reported By: @" ++ "alice") ∈ descAttributes c6cfg c6row :=
  ⟨⟨rfl, by decide, by decide⟩,
    c6_description.2.1 c6cfg c6row "alice" rfl (by decide) (by decide)⟩

/-- C7: per-record error handling is asymmetric — a failing update (or any
later step of the update branch) rejects and the rejection stops the reduce
chain, aborting the run; a failing insert is swallowed by the insert
branch's error handler, the record is skipped and the chain continues with
the next record. -/
theorem c7_error_asymmetry :
    (∀ (env : ImportEnv) (e : String), env.issueExists = true →
      env.updateResult = Except.error e → importIssue env = Except.error e) ∧
    (∀ (env : ImportEnv) (e : String), env.issueExists = true →
      env.updateResult = Except.ok () → env.replaceNotesResult = Except.error e →
      importIssue env = Except.error e) ∧
    (∀ (env : ImportEnv) (e : String), env.issueExists = false →
      env.insertResult = Except.error e →
      importIssue env = Except.ok StepOutcome.insertFailed) ∧
    (∀ (step : Row → Except String StepOutcome) (r : Row) (rest : List Row)
      (o : StepOutcome), step r = Except.ok o →
      importGitLabIssues step (r :: rest) =
        ((r.Id, o) :: (importGitLabIssues step rest).1,
          (importGitLabIssues step rest).2)) ∧
    (∀ (step : Row → Except String StepOutcome) (r : Row) (rest : List Row)
      (e : String), step r = Except.error e →
      importGitLabIssues step (r :: rest) = ([], some e)) := by
  refine ⟨?_, ?_, ?_, ?_, ?_⟩
  · intro env e h1 h2
    simp [importIssue, h1, h2]
  · intro env e h1 h2 h3
    simp [importIssue, h1, h2, h3]
  · intro env e h1 h2
    simp [importIssue, h1, h2]
  · intro step r rest o h
    simp [importGitLabIssues, h]
  · intro step r rest e h
    simp [importGitLabIssues, h]

/-- Witness for C7: the update-failure, insert-failure and chain conjuncts
applied at concrete environments and records. -/
theorem c7_error_asymmetry_witness :
    (c7envUpdateFail.issueExists = true ∧
      c7envUpdateFail.updateResult = Except.error "Failed to update issue in GitLab" ∧
      importIssue c7envUpdateFail = Except.error "Failed to update issue in GitLab") ∧
    (c7envInsertFail.issueExists = false ∧
      importIssue c7envInsertFail = Except.ok StepOutcome.insertFailed) ∧
    (c7step { Id := 1 } = Except.ok StepOutcome.insertFailed ∧
      importGitLabIssues c7step [{ Id := 1 }, { Id := 2 }] =
        ((1, StepOutcome.insertFailed) ::
          (importGitLabIssues c7step [{ Id := 2 }]).1,
          (importGitLabIssues c7step [{ Id := 2 }]).2)) :=
  ⟨⟨rfl, rfl,
      c7_error_asymmetry.1 c7envUpdateFail "Failed to update issue in GitLab" rfl rfl⟩,
    ⟨rfl, c7_error_asymmetry.2.2.1 c7envInsertFail "Failed to insert issue into GitLab"
      rfl rfl⟩,
    ⟨rfl, c7_error_asymmetry.2.2.2.1 c7step { Id := 1 } [{ Id := 2 }]
      StepOutcome.insertFailed rfl⟩⟩

/-- Every id in the driver's trace comes from the processed list. -/
theorem importGitLabIssues_trace_sub
    (step : Row → Except String StepOutcome) :
    ∀ (l : List Row) (x : Nat),
      x ∈ (importGitLabIssues step l).1.map Prod.fst → x ∈ l.map (·.Id)
  | [], x, h => by simp [importGitLabIssues] at h
  | r :: rest, x, h => by
    rcases hs : step r with e | o <;> rw [importGitLabIssues, hs] at h
    · simp at h
    · simp only [List.map_cons, List.mem_cons] at h ⊢
      rcases h with h | h
      · exact Or.inl h
      · exact Or.inr (importGitLabIssues_trace_sub step rest x h)

/-- If the processed list is strictly sorted by id, so is the driver's
trace. -/
theorem importGitLabIssues_trace_sorted
    (step : Row → Except String StepOutcome) :
    ∀ l : List Row, l.Pairwise (fun a b => a.Id < b.Id) →
      ((importGitLabIssues step l).1.map Prod.fst).Pairwise (· < ·)
  | [], _ => by simp [importGitLabIssues]
  | r :: rest, h => by
    rcases List.pairwise_cons.mp h with ⟨hr, hrest⟩
    rcases hs : step r with e | o <;> rw [importGitLabIssues, hs]
    · simp
    · simp only [List.map_cons]
      refine List.pairwise_cons.mpr ⟨?_, importGitLabIssues_trace_sorted step rest hrest⟩
      intro x hx
      rcases List.mem_map.mp (importGitLabIssues_trace_sub step rest x hx) with
        ⟨b, hb, hbx⟩
      exact hbx ▸ hr b hb

/-- A fully successful run visits exactly the given records, in order. -/
theorem importGitLabIssues_trace_complete
    (step : Row → Except String StepOutcome) :
    ∀ (l : List Row) (tr : List (Nat × StepOutcome)),
      importGitLabIssues step l = (tr, none) → tr.map Prod.fst = l.map (·.Id)
  | [], tr, h => by
    simp only [importGitLabIssues, Prod.mk.injEq] at h
    rw [← h.1]
    simp
  | r :: rest, tr, h => by
    rcases hs : step r with e | o <;> rw [importGitLabIssues, hs] at h
    · simp at h
    · simp only [Prod.mk.injEq] at h
      rw [← h.1, List.map_cons, List.map_cons]
      exact congrArg (List.cons r.Id)
        (importGitLabIssues_trace_complete step rest _ (Prod.ext rfl h.2))

/-- C9: for input records with pairwise distinct ids, `readMantisIssues`
produces a strictly increasing id sequence (numeric sort after parsing and
optional filtering), the sequential reduce chain processes those records one
at a time in exactly that order (its trace of completed records is strictly
increasing for every remote behaviour), and a fully successful run's trace
is exactly the sorted id list. -/
theorem c9_sequential_ascending (fromId : Nat) (rows : List Row)
    (h : rows.Pairwise (fun a b => a.Id ≠ b.Id)) :
    (readMantisIssues fromId rows).Pairwise (fun a b => a.Id < b.Id) ∧
    (∀ step : Row → Except String StepOutcome,
      ((importGitLabIssues step (readMantisIssues fromId rows)).1.map
        Prod.fst).Pairwise (· < ·)) ∧
    (∀ (step : Row → Except String StepOutcome) (tr : List (Nat × StepOutcome)),
      importGitLabIssues step (readMantisIssues fromId rows) = (tr, none) →
      tr.map Prod.fst = (readMantisIssues fromId rows).map (·.Id)) := by
  have hfilter : (filterFrom fromId rows).Pairwise (fun a b => a.Id ≠ b.Id) := by
    rw [filterFrom]
    by_cases h0 : fromId ≠ 0
    · rw [if_pos h0]
      exact h.filter _
    · rw [if_neg h0]
      exact h
  have hperm : List.Perm (List.insertionSort rowLe (filterFrom fromId rows))
      (filterFrom fromId rows) := List.perm_insertionSort rowLe _
  have hsorted : (readMantisIssues fromId rows).Pairwise rowLe :=
    List.sorted_insertionSort rowLe (filterFrom fromId rows)
  have hne : (readMantisIssues fromId rows).Pairwise (fun a b => a.Id ≠ b.Id) := by
    refine (List.Perm.pairwise_iff ?_ hperm).mpr hfilter
    intro a b hab
    exact hab.symm
  have hlt : (readMantisIssues fromId rows).Pairwise (fun a b => a.Id < b.Id) := by
    refine (hsorted.and hne).imp ?_
    intro a b hab
    exact Nat.lt_of_le_of_ne hab.1 hab.2
  exact ⟨hlt, fun step => importGitLabIssues_trace_sorted step _ hlt,
    fun step tr htr => importGitLabIssues_trace_complete step _ tr htr⟩

/-- Witness for C9: with `--from 2` the rows with ids 3 and 2 survive and
come out sorted strictly ascending. -/
theorem c9_sequential_ascending_witness :
    c9rows.Pairwise (fun a b => a.Id ≠ b.Id) ∧
    (readMantisIssues 2 c9rows).Pairwise (fun a b => a.Id < b.Id) :=
  ⟨by decide, (c9_sequential_ascending 2 c9rows (by decide)).1⟩

/-- C8: with `onlyMantisNotes` (as `replaceIssueNotes` always passes),
exactly the notes whose body begins with the attribution marker get a
deletion, notes without the marker are untouched; a deletion rejected with
status 403 is swallowed into the distinguishable non-error result `.ok
none`, a successful deletion yields `.ok (some status)`, and a rejection
with any other status throws. -/
theorem c8_note_deletion :
    (∀ (notes : List GLNote) (deleteRemote : Nat → Except Nat Nat),
      attemptedDeletes (deleteAllIssueNotes true (Except.ok notes) deleteRemote) =
        (notes.filter (fun n => startsWithL mantisNoteMarker.data n.body.data)).map
          (fun n => (n.id, deleteIssueNote (deleteRemote n.id)))) ∧
    (∀ (notes : List GLNote) (n : GLNote), n ∈ notes →
      startsWithL mantisNoteMarker.data n.body.data = false →
      n ∉ notes.filter (fun n => startsWithL mantisNoteMarker.data n.body.data)) ∧
    (deleteIssueNote (Except.error 403) = Except.ok none) ∧
    (∀ status : Nat, deleteIssueNote (Except.ok status) = Except.ok (some status) ∧
      Except.ok (none : Option Nat) ≠ (Except.ok (some status) : Except String (Option Nat))) ∧
    (∀ code : Nat, code ≠ 403 → deleteIssueNote (Except.error code) =
      Except.error "Failed to remove note of issue in GitLab") := by
  refine ⟨?_, ?_, rfl, ?_, ?_⟩
  · intro notes deleteRemote
    simp [deleteAllIssueNotes, attemptedDeletes]
  · intro notes n _ hmark hmem
    rcases List.mem_filter.mp hmem with ⟨_, hpred⟩
    rw [hmark] at hpred
    exact Bool.false_ne_true hpred
  · intro status
    exact ⟨rfl, by simp⟩
  · intro code hc
    simp [deleteIssueNote, hc]

/-- Witness for C8: only the marker-prefixed note 1 is attempted, its 403
rejection is swallowed, and a 500 rejection would throw. -/
theorem c8_note_deletion_witness :
    (attemptedDeletes (deleteAllIssueNotes true (Except.ok c8notes) c8deleteRemote) =
      [(1, Except.ok none)]) ∧
    ((500 : Nat) ≠ 403 ∧ deleteIssueNote (Except.error 500) =
      Except.error "Failed to remove note of issue in GitLab") :=
  ⟨by rw [c8_note_deletion.1 c8notes c8deleteRemote]; rfl, ⟨by decide,
    c8_note_deletion.2.2.2.2 500 (by decide)⟩⟩

/-- Dropping the head of a `][`-free list keeps it `][`-free. -/
theorem hasSep_cons (a : Char) (l : List Char) (h : hasSep (a :: l) = false) :
    hasSep l = false := by
  cases l with
  | nil => rfl
  | cons b r =>
    simp only [hasSep, Bool.or_eq_false_iff] at h
    exact h.2

/-- A `][`-free list does not start with `][`. -/
theorem expectSep_none (l : List Char) (h : hasSep l = false) :
    expectSep l = none := by
  match l with
  | [] => rfl
  | [a] => rfl
  | a :: b :: r =>
    by_cases hc : a = ']' ∧ b = '['
    · rw [hc.1, hc.2] at h
      simp [hasSep] at h
    · rw [show expectSep (a :: b :: r) = if a = ']' ∧ b = '[' then some r else none
        from rfl, if_neg hc]

/-- `expectSep` fails whenever the head is not `]`. -/
theorem expectSep_cons_ne (a : Char) (l : List Char) (ha : a ≠ ']') :
    expectSep (a :: l) = none := by
  cases l with
  | nil => rfl
  | cons b r =>
    rw [show expectSep (a :: b :: r) = if a = ']' ∧ b = '[' then some r else none
      from rfl, if_neg (fun hh => ha hh.1)]

/-- `dropWhile` keeps a `][`-free list `][`-free. -/
theorem hasSep_dropWhile (p : Char → Bool) :
    ∀ l : List Char, hasSep l = false → hasSep (l.dropWhile p) = false
  | [], _ => rfl
  | a :: l, h => by
    by_cases hp : p a = true
    · simp only [List.dropWhile_cons, hp, if_true]
      exact hasSep_dropWhile p l (hasSep_cons a l h)
    · have hp' : p a = false := by simpa using hp
      simpa [List.dropWhile_cons, hp'] using h

/-- `matchTail` fails on a `][`-free input. -/
theorem matchTail_none (l : List Char) (h : hasSep l = false) :
    matchTail l = none := by
  simp [matchTail, expectSep_none l h]

/-- `matchTail` fails when the input does not start with `]`. -/
theorem matchTail_cons_ne (a : Char) (l : List Char) (ha : a ≠ ']') :
    matchTail (a :: l) = none := by
  simp [matchTail, expectSep_cons_ne a l ha]

/-- `matchAt` fails on a `][`-free input. -/
theorem matchAt_none_of_hasSep (l : List Char) (h : hasSep l = false) :
    matchAt l = none := by
  by_cases ht : l.takeWhile isTsChar = []
  · simp [matchAt, ht]
  · simp [matchAt, ht, matchTail_none _ (hasSep_dropWhile isTsChar l h)]

/-- `matchAt` fails when the head is not a timestamp character. -/
theorem matchAt_cons_not_ts (c : Char) (l : List Char) (h : isTsChar c = false) :
    matchAt (c :: l) = none := by
  simp [matchAt, List.takeWhile_cons, h]

/-- The regex cannot match anywhere in a `][`-free string. -/
theorem findMatch_none_of_hasSep :
    ∀ l : List Char, hasSep l = false → findMatch l = none
  | [], _ => rfl
  | c :: rest, h => by
    simp only [findMatch, matchAt_none_of_hasSep _ h]
    exact findMatch_none_of_hasSep rest (hasSep_cons c rest h)

/-- `takeWhile` walks through a block of satisfying elements. -/
theorem takeWhile_append_all (p : Char → Bool) :
    ∀ l r : List Char, (∀ c ∈ l, p c = true) →
      (l ++ r).takeWhile p = l ++ r.takeWhile p
  | [], _, _ => rfl
  | a :: l, r, h => by
    have ha : p a = true := h a (List.mem_cons_self a l)
    simp only [List.cons_append, List.takeWhile_cons, ha, if_true]
    rw [takeWhile_append_all p l r (fun c hc => h c (List.mem_cons_of_mem a hc))]

/-- `dropWhile` walks through a block of satisfying elements. -/
theorem dropWhile_append_all (p : Char → Bool) :
    ∀ l r : List Char, (∀ c ∈ l, p c = true) →
      (l ++ r).dropWhile p = r.dropWhile p
  | [], _, _ => rfl
  | a :: l, r, h => by
    have ha : p a = true := h a (List.mem_cons_self a l)
    simp only [List.cons_append, List.dropWhile_cons, ha, if_true]
    exact dropWhile_append_all p l r (fun c hc => h c (List.mem_cons_of_mem a hc))

/-- Scanning from inside the author segment never matches: the first
non-timestamp character there is not `]`, and the body holds no `][`. -/
theorem matchTail_dropWhile_author (body : List Char) (hb : hasSep body = false) :
    ∀ a' : List Char, (∀ c ∈ a', c ≠ ']') →
      matchTail (List.dropWhile isTsChar (a' ++ ']' :: '[' :: body)) = none
  | [], _ => by
    rw [List.nil_append,
      show List.dropWhile isTsChar (']' :: '[' :: body) = ']' :: '[' :: body from by
        simp [List.dropWhile_cons, show isTsChar ']' = false from by decide]]
    have hsep : expectSep (']' :: '[' :: body) = some body := by
      simp [expectSep]
    by_cases ht : body.takeWhile isLowerAZ = []
    · simp [matchTail, hsep, ht]
    · simp [matchTail, hsep, ht,
        expectSep_none _ (hasSep_dropWhile isLowerAZ body hb)]
  | a :: rest, h => by
    have ha : a ≠ ']' := h a (List.mem_cons_self a rest)
    have hrest : ∀ c ∈ rest, c ≠ ']' := fun c hc => h c (List.mem_cons_of_mem a hc)
    rw [List.cons_append]
    by_cases hA : isTsChar a = true
    · rw [show List.dropWhile isTsChar (a :: (rest ++ ']' :: '[' :: body)) =
          List.dropWhile isTsChar (rest ++ ']' :: '[' :: body) from by
        simp [List.dropWhile_cons, hA]]
      exact matchTail_dropWhile_author body hb rest hrest
    · have hA' : isTsChar a = false := by simpa using hA
      rw [show List.dropWhile isTsChar (a :: (rest ++ ']' :: '[' :: body)) =
          a :: (rest ++ ']' :: '[' :: body) from by
        simp [List.dropWhile_cons, hA']]
      exact matchTail_cons_ne a _ ha

/-- Scanning from the author segment onwards never matches. -/
theorem findMatch_author_none (body : List Char) (hb : hasSep body = false) :
    ∀ a' : List Char, (∀ c ∈ a', c ≠ ']') →
      findMatch (a' ++ ']' :: '[' :: body) = none
  | [], _ => by
    rw [List.nil_append]
    have e1 : findMatch (']' :: '[' :: body) = findMatch ('[' :: body) := by
      simp [findMatch, matchAt_cons_not_ts ']' ('[' :: body) (by decide)]
    have e2 : findMatch ('[' :: body) = findMatch body := by
      simp [findMatch, matchAt_cons_not_ts '[' body (by decide)]
    rw [e1, e2]
    exact findMatch_none_of_hasSep body hb
  | a :: rest, h => by
    have ha : a ≠ ']' := h a (List.mem_cons_self a rest)
    have hrest : ∀ c ∈ rest, c ≠ ']' := fun c hc => h c (List.mem_cons_of_mem a hc)
    rw [List.cons_append]
    have hAt : matchAt (a :: (rest ++ ']' :: '[' :: body)) = none := by
      by_cases hA : isTsChar a = true
      · have htw : (a :: (rest ++ ']' :: '[' :: body)).takeWhile isTsChar =
            a :: (rest ++ ']' :: '[' :: body).takeWhile isTsChar := by
          simp [List.takeWhile_cons, hA]
        have hdw : (a :: (rest ++ ']' :: '[' :: body)).dropWhile isTsChar =
            (rest ++ ']' :: '[' :: body).dropWhile isTsChar := by
          simp [List.dropWhile_cons, hA]
        simp only [matchAt, htw, hdw]
        rw [if_neg (List.cons_ne_nil _ _),
          matchTail_dropWhile_author body hb rest hrest]
      · have hA' : isTsChar a = false := by simpa using hA
        exact matchAt_cons_not_ts a _ hA'
    simp only [findMatch, hAt]
    exact findMatch_author_none body hb rest hrest

/-- Scanning the whole chunk never matches: from inside the timestamp, the
lowercase run after the first `][` stops at the author's offending
character, which is not `]`. -/
theorem findMatch_chunk_none (p q body : List Char) (d : Char)
    (hp : ∀ c ∈ p, isLowerAZ c = true) (hd : isLowerAZ d = false)
    (hnr : ∀ c ∈ p ++ d :: q, c ≠ ']') (hb : hasSep body = false) :
    ∀ ts' : List Char, (∀ c ∈ ts', isTsChar c = true) →
      findMatch (ts' ++ ']' :: '[' :: ((p ++ d :: q) ++ ']' :: '[' :: body)) = none
  | [], _ => by
    rw [List.nil_append]
    have e1 : findMatch (']' :: '[' :: ((p ++ d :: q) ++ ']' :: '[' :: body)) =
        findMatch ('[' :: ((p ++ d :: q) ++ ']' :: '[' :: body)) := by
      simp [findMatch, matchAt_cons_not_ts ']' _ (by decide)]
    have e2 : findMatch ('[' :: ((p ++ d :: q) ++ ']' :: '[' :: body)) =
        findMatch ((p ++ d :: q) ++ ']' :: '[' :: body) := by
      simp [findMatch, matchAt_cons_not_ts '[' _ (by decide)]
    rw [e1, e2]
    exact findMatch_author_none body hb (p ++ d :: q) hnr
  | c :: ts'', hts => by
    have hc : isTsChar c = true := hts c (List.mem_cons_self c ts'')
    have hts'' : ∀ x ∈ ts'', isTsChar x = true :=
      fun x hx => hts x (List.mem_cons_of_mem c hx)
    rw [List.cons_append]
    have hassoc : (p ++ d :: q) ++ ']' :: '[' :: body =
        p ++ (d :: (q ++ ']' :: '[' :: body)) := by
      simp [List.append_assoc]
    have hAt : matchAt (c :: (ts'' ++ ']' :: '[' ::
        ((p ++ d :: q) ++ ']' :: '[' :: body))) = none := by
      have hdw : (c :: (ts'' ++ ']' :: '[' ::
          ((p ++ d :: q) ++ ']' :: '[' :: body))).dropWhile isTsChar =
          ']' :: '[' :: ((p ++ d :: q) ++ ']' :: '[' :: body) := by
        rw [List.dropWhile_cons, if_pos hc,
          dropWhile_append_all isTsChar ts'' _ hts'', List.dropWhile_cons]
        rw [if_neg (by simp [show isTsChar ']' = false from by decide])]
      have htw : (c :: (ts'' ++ ']' :: '[' ::
          ((p ++ d :: q) ++ ']' :: '[' :: body))).takeWhile isTsChar =
          c :: (ts'' ++ ']' :: '[' ::
            ((p ++ d :: q) ++ ']' :: '[' :: body)).takeWhile isTsChar := by
        simp [List.takeWhile_cons, hc]
      have hmt : matchTail (']' :: '[' :: ((p ++ d :: q) ++ ']' :: '[' :: body)) =
          none := by
        have hsepA : expectSep (']' :: '[' :: ((p ++ d :: q) ++ ']' :: '[' :: body)) =
            some ((p ++ d :: q) ++ ']' :: '[' :: body) := by
          simp [expectSep]
        have htwA : ((p ++ d :: q) ++ ']' :: '[' :: body).takeWhile isLowerAZ = p := by
          rw [hassoc, takeWhile_append_all isLowerAZ p _ hp, List.takeWhile_cons,
            if_neg (by simp [hd]), List.append_nil]
        have hdwA : ((p ++ d :: q) ++ ']' :: '[' :: body).dropWhile isLowerAZ =
            d :: (q ++ ']' :: '[' :: body) := by
          rw [hassoc, dropWhile_append_all isLowerAZ p _ hp, List.dropWhile_cons,
            if_neg (by simp [hd])]
        by_cases hpe : p = []
        · simp only [matchTail, hsepA]
          rw [htwA, if_pos hpe]
        · have hd' : d ≠ ']' := hnr d (by simp)
          simp only [matchTail, hsepA]
          rw [htwA, if_neg hpe, hdwA, expectSep_cons_ne d _ hd']
      simp only [matchAt, htw, hdw]
      rw [if_neg (List.cons_ne_nil _ _), hmt]
    simp only [findMatch, hAt]
    exact findMatch_chunk_none p q body d hp hd hnr hb ts'' hts''

/-- A list containing a non-lowercase character splits at the first one. -/
theorem exists_first_not_lower :
    ∀ l : List Char, (∃ c ∈ l, isLowerAZ c = false) →
      ∃ p d q, l = p ++ d :: q ∧ (∀ c ∈ p, isLowerAZ c = true) ∧ isLowerAZ d = false
  | [], h => by simp at h
  | a :: l, h => by
    by_cases ha : isLowerAZ a = true
    · have h' : ∃ c ∈ l, isLowerAZ c = false := by
        rcases h with ⟨c, hc, hcf⟩
        rcases List.mem_cons.mp hc with rfl | hc'
        · rw [ha] at hcf
          exact absurd hcf (by simp)
        · exact ⟨c, hc', hcf⟩
      rcases exists_first_not_lower l h' with ⟨p, d, q, hl, hp, hd⟩
      refine ⟨a :: p, d, q, by rw [hl, List.cons_append], ?_, hd⟩
      intro c hc
      rcases List.mem_cons.mp hc with rfl | hc'
      · exact ha
      · exact hp c hc'
    · exact ⟨[], a, l, rfl, by simp, by simpa using ha⟩

/-- If any element fails, the whole optional traversal fails (the
`getNotes` loop throws at the first chunk whose match is `null`). -/
theorem mapOption_none_of_mem {α β : Type} (f : α → Option β) :
    ∀ (l : List α) (x : α), x ∈ l → f x = none → mapOption f l = none
  | [], x, hx, _ => by simp at hx
  | a :: l, x, hx, hfx => by
    rcases List.mem_cons.mp hx with rfl | hx'
    · simp [mapOption, hfx]
    · simp only [mapOption, mapOption_none_of_mem f l x hx' hfx]
      cases f a <;> rfl

/-- C10 (amended): for a notes chunk `timestamp][author][body` whose
timestamp is a nonempty run of `[\dTZ:-]` characters, whose author contains
no `]` and whose body contains no `][` occurrence, an author containing any
character outside lowercase `a-z` makes the regex match return nothing, so
the chunk's parse is `none` and `getNotes` on any record whose split notes
contain this chunk raises the error that halts processing.  (Without the
restriction on the body the statement is false: a `][` inside the body can
let the match re-anchor inside the chunk, see the counterexample.) -/
theorem c10_bad_author_chunk_errors (ts author body : List Char)
    (_h1 : ts ≠ []) (h2 : ∀ c ∈ ts, isTsChar c = true)
    (h3 : ∀ c ∈ author, c ≠ ']') (h4 : ∃ c ∈ author, isLowerAZ c = false)
    (h5 : hasSep body = false) :
    findMatch (ts ++ ']' :: '[' :: (author ++ ']' :: '[' :: body)) = none ∧
    parseNote (ts ++ ']' :: '[' :: (author ++ ']' :: '[' :: body)) = none ∧
    (∀ (row : Row) (s : String), row.Notes = some s → ¬(s = "" ∨ s = "NULL") →
      (ts ++ ']' :: '[' :: (author ++ ']' :: '[' :: body)) ∈ splitOnSep s.data →
      getNotes row = NotesResult.parseError) := by
  rcases exists_first_not_lower author h4 with ⟨p, d, q, hl, hp, hd⟩
  have hfm : findMatch (ts ++ ']' :: '[' :: (author ++ ']' :: '[' :: body)) = none := by
    rw [hl]
    exact findMatch_chunk_none p q body d hp hd (hl ▸ h3) h5 ts h2
  have hpn : parseNote (ts ++ ']' :: '[' :: (author ++ ']' :: '[' :: body)) = none := by
    simp [parseNote, hfm]
  refine ⟨hfm, hpn, ?_⟩
  intro row s hrow hs hmem
  have hnone := mapOption_none_of_mem parseNote (splitOnSep s.data) _ hmem hpn
  simp [getNotes, hrow, hs, hnone]

/-- Witness for C10 (amended) at the chunk `2020Z][Bob][hi`. -/
theorem c10_bad_author_chunk_errors_witness :
    (("2020Z").data ≠ [] ∧ (∀ c ∈ ("2020Z").data, isTsChar c = true) ∧
      (∀ c ∈ ("Bob").data, c ≠ ']') ∧
      (∃ c ∈ ("Bob").data, isLowerAZ c = false) ∧ hasSep ("hi").data = false) ∧
    findMatch (("2020Z").data ++ ']' :: '[' ::
      (("Bob").data ++ ']' :: '[' :: ("hi").data)) = none :=
  ⟨⟨by decide, by decide, by decide, by decide, by decide⟩,
    (c10_bad_author_chunk_errors ("2020Z").data ("Bob").data ("hi").data
      (by decide) (by decide) (by decide) (by decide) (by decide)).1⟩

/-- C10 counterexample: the claim as stated is false.  The chunk
`2020-01-01T00:00:00Z][user2][ab][cd` has the well-formed
`timestamp][author][body` shape with a valid timestamp and the author token
`user2`, which contains the character `2` outside `a-z`; yet the match does
not return nothing — the regex re-anchors at the `2` inside the author and
at the `][` inside the body, the chunk parses, no error is raised, and
`getNotes` returns a (garbled) note instead of halting. -/
theorem c10_counterexample_body_sep_matches :
    ("2020-01-01T00:00:00Z][user2][ab][cd").data =
      ("2020-01-01T00:00:00Z").data ++ ']' :: '[' ::
        (("user2").data ++ ']' :: '[' :: ("ab][cd").data) ∧
    '2' ∈ ("user2").data ∧ isLowerAZ '2' = false ∧
    parseNote (("2020-01-01T00:00:00Z").data ++ ']' :: '[' ::
        (("user2").data ++ ']' :: '[' :: ("ab][cd").data)) =
      some ⟨"2", "ab", "_via Mantis:_ cd"⟩ ∧
    getNotes c10row = NotesResult.notes [⟨"2", "ab", "_via Mantis:_ cd"⟩] := by
  refine ⟨rfl, by decide, rfl, rfl, rfl⟩

